import Mathlib

/-!
Shallow embedding of `src/etcd.py` (PyEtcdConf): the service resolver
`get_service`, the config resolver `get_conf` with its inner recursion
`build_conf`, the request normalizer `_build_tuple`, and the orchestrator
`info` with its module-level cache `_cached_result`.

Python dicts are modelled as insertion-ordered association lists with
overwrite-in-place update semantics (matching CPython `dict.update`).
Python exceptions are modelled with `Except PyErr`; `None` results with
`Option`. The HTTP layer (`requests.get(url).json()`) is modelled as a
`Store` mapping each URL to the decoded response shape the code consumes.
-/

set_option autoImplicit false

namespace Etcd

/-- Python exceptions that the code can raise or catch. -/
inductive PyErr where
  | keyError
  | indexError
  | valueError
  | typeError
deriving DecidableEq

/-- A Python value in the final result bundle: a string leaf, an integer
(parsed port), or a dict. -/
inductive Val where
  | s : String → Val
  | i : Int → Val
  | d : List (String × Val) → Val

mutual
def Val.decEq : (a b : Val) → Decidable (a = b)
  | .s x, .s y =>
    match String.decEq x y with
    | isTrue h => isTrue (by rw [h])
    | isFalse h => isFalse (by intro hc; cases hc; exact h rfl)
  | .s _, .i _ => isFalse (by intro hc; cases hc)
  | .s _, .d _ => isFalse (by intro hc; cases hc)
  | .i _, .s _ => isFalse (by intro hc; cases hc)
  | .i x, .i y =>
    match Int.decEq x y with
    | isTrue h => isTrue (by rw [h])
    | isFalse h => isFalse (by intro hc; cases hc; exact h rfl)
  | .i _, .d _ => isFalse (by intro hc; cases hc)
  | .d _, .s _ => isFalse (by intro hc; cases hc)
  | .d _, .i _ => isFalse (by intro hc; cases hc)
  | .d x, .d y =>
    match Val.decEqList x y with
    | isTrue h => isTrue (by rw [h])
    | isFalse h => isFalse (by intro hc; cases hc; exact h rfl)

def Val.decEqList : (a b : List (String × Val)) → Decidable (a = b)
  | [], [] => isTrue rfl
  | [], _ :: _ => isFalse (by intro hc; cases hc)
  | _ :: _, [] => isFalse (by intro hc; cases hc)
  | (k1, v1) :: r1, (k2, v2) :: r2 =>
    match String.decEq k1 k2, Val.decEq v1 v2, Val.decEqList r1 r2 with
    | isTrue h1, isTrue h2, isTrue h3 => isTrue (by rw [h1, h2, h3])
    | isFalse h1, _, _ => isFalse (by intro hc; cases hc; exact h1 rfl)
    | _, isFalse h2, _ => isFalse (by intro hc; cases hc; exact h2 rfl)
    | _, _, isFalse h3 => isFalse (by intro hc; cases hc; exact h3 rfl)
end

instance : DecidableEq Val := Val.decEq

instance {ε α : Type} [DecidableEq ε] [DecidableEq α] : DecidableEq (Except ε α) :=
  fun a b =>
    match a, b with
    | .ok x, .ok y =>
      match decEq x y with
      | isTrue h => isTrue (by rw [h])
      | isFalse h => isFalse (by intro hc; cases hc; exact h rfl)
    | .ok _, .error _ => isFalse (by intro hc; cases hc)
    | .error _, .ok _ => isFalse (by intro hc; cases hc)
    | .error x, .error y =>
      match decEq x y with
      | isTrue h => isTrue (by rw [h])
      | isFalse h => isFalse (by intro hc; cases hc; exact h rfl)

/-- A Python dict with `Val` values: insertion-ordered association list. -/
abbrev Dct := List (String × Val)

/-- `dinsert d k v` models `d[k] = v` on a CPython dict: overwrite in place
if the key exists, else append at the end. -/
def dinsert {α : Type} (d : List (String × α)) (k : String) (v : α) :
    List (String × α) :=
  if d.any (fun p => p.1 = k) then
    d.map (fun p => if p.1 = k then (k, v) else p)
  else
    d ++ [(k, v)]

/-- `dupdate d e` models `d.update(e)`. -/
def dupdate {α : Type} (d e : List (String × α)) : List (String × α) :=
  e.foldl (fun a p => dinsert a p.1 p.2) d

/-- `dget d k` models `d.get(k)` / `k in d` lookup. -/
def dget {α : Type} : List (String × α) → String → Option α
  | [], _ => none
  | (k2, v) :: rest, k => if k2 = k then some v else dget rest k

/-- `pyDictOf l` models `dict(l)` built from a list of key-value pairs
(later pairs with the same key overwrite earlier ones). -/
def pyDictOf {α : Type} (l : List (String × α)) : List (String × α) :=
  l.foldl (fun a p => dinsert a p.1 p.2) []

/-- `merge_dicts(*dict_args)` from `info`: shallow copy and merge into a new
dict, precedence to key-value pairs in latter dicts. -/
def merge_dicts {α : Type} (args : List (List (String × α))) : List (String × α) :=
  args.foldl (fun result_map dictionary => dupdate result_map dictionary) []

/-- Split a character list at every occurrence of `sep`, like Python
`str.split(sep)` with an explicit separator (never drops empty pieces). -/
def splitChar (sep : Char) : List Char → List (List Char)
  | [] => [[]]
  | c :: rest =>
    let r := splitChar sep rest
    if c = sep then [] :: r
    else (c :: r.headD []) :: r.tail

/-- Python `s.split(sep)` for a one-character separator. -/
def pySplit (sep : Char) (s : String) : List String :=
  (splitChar sep s.data).map (fun cs => String.mk cs)

/-- `key.split('/')[-1]`: the last path segment of a key. -/
def lastSeg (s : String) : String :=
  (pySplit '/' s).getLastD ""

/-- Digits-only parse used by `pyInt?`. -/
def digitsToNat? (cs : List Char) : Option Nat :=
  if cs = [] then none
  else if cs.all Char.isDigit then
    some (cs.foldl (fun a c => a * 10 + (c.toNat - 48)) 0)
  else none

/-- Strip leading and trailing whitespace, as Python `int()` does before
parsing. -/
def stripWs (cs : List Char) : List Char :=
  ((cs.dropWhile Char.isWhitespace).reverse.dropWhile Char.isWhitespace).reverse

/-- Python `int(s)` on a string: optional whitespace, optional sign, then a
non-empty run of decimal digits; anything else raises `ValueError`
(modelled as `none`). -/
def pyInt? (s : String) : Option Int :=
  match stripWs s.data with
  | '+' :: rest => (digitsToNat? rest).map Int.ofNat
  | '-' :: rest => (digitsToNat? rest).map (fun n => -(n : Int))
  | cs => (digitsToNat? cs).map Int.ofNat

/-- One entry of the `node.nodes` listing consumed by `get_service`:
the dict fields `key` and `value` the code reads (absent field = `none`,
whose access raises `KeyError`). -/
structure SEntry where
  key : Option String
  value : Option String
deriving DecidableEq

/-- The shape `requests.get(url).json()['node']['nodes']` can take for a
service lookup: `missing` when the `node` or `nodes` key is absent
(the `KeyError` path), `entries l` when a listing is returned. -/
inductive SvcFetch where
  | missing
  | entries (l : List SEntry)
deriving DecidableEq

/-- A node of the config tree returned for a recursive lookup: the dict
fields `key`, `value`, `dir`, `nodes` that `build_conf` reads, each
optional. -/
inductive CNode where
  | mk (key : Option String) (value : Option String) (dir : Option Bool)
      (nodes : Option (List CNode))

mutual
def CNode.decEq : (a b : CNode) → Decidable (a = b)
  | .mk k1 v1 d1 ns1, .mk k2 v2 d2 ns2 =>
    match (inferInstance : Decidable (k1 = k2)), (inferInstance : Decidable (v1 = v2)),
          (inferInstance : Decidable (d1 = d2)), CNode.decEqOptList ns1 ns2 with
    | isTrue h1, isTrue h2, isTrue h3, isTrue h4 => isTrue (by rw [h1, h2, h3, h4])
    | isFalse h1, _, _, _ => isFalse (by intro hc; cases hc; exact h1 rfl)
    | _, isFalse h2, _, _ => isFalse (by intro hc; cases hc; exact h2 rfl)
    | _, _, isFalse h3, _ => isFalse (by intro hc; cases hc; exact h3 rfl)
    | _, _, _, isFalse h4 => isFalse (by intro hc; cases hc; exact h4 rfl)

def CNode.decEqOptList : (a b : Option (List CNode)) → Decidable (a = b)
  | none, none => isTrue rfl
  | none, some _ => isFalse (by intro hc; cases hc)
  | some _, none => isFalse (by intro hc; cases hc)
  | some l1, some l2 =>
    match CNode.decEqList l1 l2 with
    | isTrue h => isTrue (by rw [h])
    | isFalse h => isFalse (by intro hc; cases hc; exact h rfl)

def CNode.decEqList : (a b : List CNode) → Decidable (a = b)
  | [], [] => isTrue rfl
  | [], _ :: _ => isFalse (by intro hc; cases hc)
  | _ :: _, [] => isFalse (by intro hc; cases hc)
  | n1 :: r1, n2 :: r2 =>
    match CNode.decEq n1 n2, CNode.decEqList r1 r2 with
    | isTrue h1, isTrue h2 => isTrue (by rw [h1, h2])
    | isFalse h1, _ => isFalse (by intro hc; cases hc; exact h1 rfl)
    | _, isFalse h2 => isFalse (by intro hc; cases hc; exact h2 rfl)
end

instance : DecidableEq CNode := CNode.decEq

def CNode.key : CNode → Option String
  | .mk k _ _ _ => k

def CNode.value : CNode → Option String
  | .mk _ v _ _ => v

def CNode.dir : CNode → Option Bool
  | .mk _ _ d _ => d

def CNode.nodes : CNode → Option (List CNode)
  | .mk _ _ _ ns => ns

/-- The shape `requests.get(url).json()` takes for a config lookup:
`noNode` when the response has no `node` key, `node n` otherwise. -/
inductive ConfFetch where
  | noNode
  | node (n : CNode)
deriving DecidableEq

/-- The black-box HTTP store: what each URL's decoded response looks like,
for the two URL shapes the code builds. -/
structure Store where
  svc : String → SvcFetch
  conf : String → ConfFetch

/-- `'%s/v2/keys/backends/%s' % (etcd_url, service_name)`. -/
def service_url (etcd_url service_name : String) : String :=
  etcd_url ++ "/v2/keys/backends/" ++ service_name

/-- `'%s/v2/keys/project-conf/%s?recursive=true' % (etcd_url, conf_name)`. -/
def conf_url (etcd_url conf_name : String) : String :=
  etcd_url ++ "/v2/keys/project-conf/" ++ conf_name ++ "?recursive=true"

/-- Inner `get_service_entry(entry)` of `get_service`:
`key = entry['key'].split('/')[-1]`, `value = entry['value'].split(':')`,
`host = value[0]`, `port = int(value[1])`, returning
`(key, {'host': host, 'port': port})`. Field access on a missing key raises
`KeyError`, `value[1]` on a too-short list raises `IndexError`, and a
non-integer port raises `ValueError`. -/
def get_service_entry (entry : SEntry) : Except PyErr (String × Val) :=
  match entry.key with
  | none => Except.error PyErr.keyError
  | some kRaw =>
    match entry.value with
    | none => Except.error PyErr.keyError
    | some vRaw =>
      let key := lastSeg kRaw
      let value := pySplit ':' vRaw
      let host := value.headD ""
      match value.get? 1 with
      | none => Except.error PyErr.indexError
      | some portStr =>
        match pyInt? portStr with
        | none => Except.error PyErr.valueError
        | some port =>
          Except.ok (key, Val.d [("host", Val.s host), ("port", Val.i port)])

/-- Python `map(f, l)` under exception semantics: evaluate `f` on each
element in order; the first raised exception aborts the whole map. -/
def mapExcept {ε α β : Type} (f : α → Except ε β) : List α → Except ε (List β)
  | [] => Except.ok []
  | x :: rest =>
    match f x with
    | Except.error e => Except.error e
    | Except.ok y =>
      match mapExcept f rest with
      | Except.error e => Except.error e
      | Except.ok l => Except.ok (y :: l)

/-- `get_service(etcd_url, service_name, alias)`: fetch
`{etcd_url}/v2/keys/backends/{service_name}`, read `['node']['nodes']`, map
`get_service_entry` over the entries and return `{alias: dict(...)}`; any
`KeyError`/`IndexError`/`ValueError` (the only exceptions the body can
raise) is caught and turned into `None`. -/
def get_service (store : Store) (etcd_url service_name aliasName : String) :
    Option Dct :=
  match store.svc (service_url etcd_url service_name) with
  | SvcFetch.missing => none
  | SvcFetch.entries nodes =>
    match mapExcept get_service_entry nodes with
    | Except.error _ => none
    | Except.ok pairs => some [(aliasName, Val.d (pyDictOf pairs))]

/-- Python truthiness of the `node_alias` argument (`node_alias or ...`):
`None` and the empty string are falsy. -/
def truthyOpt : Option String → Option String
  | some s => if s = "" then none else some s
  | none => none

mutual
/-- Inner `build_conf(node, node_alias=None)` of `get_conf`:
`current_key = node_alias or node['key'].split('/')[-1]` (a `KeyError` if
the key field is absent and no truthy alias is given); if
`'dir' in node and node['dir'] and 'nodes' in node and node['nodes']`,
merge the recursively built children into `m` and return
`{current_key: m}`; elif `'value' in node` return `{current_key: value}`;
else return `None`. -/
def build_conf (node : CNode) (node_alias : Option String) :
    Except PyErr (Option Dct) :=
  match node with
  | CNode.mk key value dir nodes =>
    match (match truthyOpt node_alias with
           | some a => Except.ok a
           | none =>
             match key with
             | some k => Except.ok (lastSeg k)
             | none => Except.error PyErr.keyError : Except PyErr String) with
    | Except.error e => Except.error e
    | Except.ok current_key =>
      match dir, nodes with
      | some true, some (n1 :: ns) =>
        match build_children (n1 :: ns) [] with
        | Except.error e => Except.error e
        | Except.ok m => Except.ok (some [(current_key, Val.d m)])
      | _, _ =>
        match value with
        | some v => Except.ok (some [(current_key, Val.s v)])
        | none => Except.ok none

/-- The loop `m = {}; for n in node['nodes']: m.update(build_conf(n))` of
`build_conf`: a child that raises propagates its exception, and a child
whose `build_conf` returns `None` makes `m.update(None)` raise
`TypeError`. -/
def build_children (l : List CNode) (m : Dct) : Except PyErr Dct :=
  match l with
  | [] => Except.ok m
  | n :: rest =>
    match build_conf n none with
    | Except.error e => Except.error e
    | Except.ok none => Except.error PyErr.typeError
    | Except.ok (some d2) => build_children rest (dupdate m d2)
end

/-- `get_conf(etcd_url, conf_name, alias)`: fetch
`{etcd_url}/v2/keys/project-conf/{conf_name}?recursive=true`; if the
response has no `node` key return `None`, else run
`build_conf(data['node'], node_alias=alias)`. No exception is caught
here: anything `build_conf` raises propagates to the caller. -/
def get_conf (store : Store) (etcd_url conf_name aliasName : String) :
    Except PyErr (Option Dct) :=
  match store.conf (conf_url etcd_url conf_name) with
  | ConfFetch.noNode => Except.ok none
  | ConfFetch.node n => build_conf n (some aliasName)

/-- A Python value as it may appear in the `service_names` / `conf_names`
request lists: a string, a tuple, or any other object (int, list, dict,
...), which `_build_tuple` rejects. -/
inductive PyVal where
  | str : String → PyVal
  | tup : List PyVal → PyVal
  | other : PyVal

mutual
def PyVal.decEq : (a b : PyVal) → Decidable (a = b)
  | .str x, .str y =>
    match String.decEq x y with
    | isTrue h => isTrue (by rw [h])
    | isFalse h => isFalse (by intro hc; cases hc; exact h rfl)
  | .str _, .tup _ => isFalse (by intro hc; cases hc)
  | .str _, .other => isFalse (by intro hc; cases hc)
  | .tup _, .str _ => isFalse (by intro hc; cases hc)
  | .tup x, .tup y =>
    match PyVal.decEqList x y with
    | isTrue h => isTrue (by rw [h])
    | isFalse h => isFalse (by intro hc; cases hc; exact h rfl)
  | .tup _, .other => isFalse (by intro hc; cases hc)
  | .other, .str _ => isFalse (by intro hc; cases hc)
  | .other, .tup _ => isFalse (by intro hc; cases hc)
  | .other, .other => isTrue rfl

def PyVal.decEqList : (a b : List PyVal) → Decidable (a = b)
  | [], [] => isTrue rfl
  | [], _ :: _ => isFalse (by intro hc; cases hc)
  | _ :: _, [] => isFalse (by intro hc; cases hc)
  | n1 :: r1, n2 :: r2 =>
    match PyVal.decEq n1 n2, PyVal.decEqList r1 r2 with
    | isTrue h1, isTrue h2 => isTrue (by rw [h1, h2])
    | isFalse h1, _ => isFalse (by intro hc; cases hc; exact h1 rfl)
    | _, isFalse h2 => isFalse (by intro hc; cases hc; exact h2 rfl)
end

instance : DecidableEq PyVal := PyVal.decEq

/-- Rendering of a `PyVal` by Python string interpolation when it is used
in a URL or as a dict key. For the string inputs every request list in
this development uses, it is the string itself; the exact rendering of
non-string objects is irrelevant to the code paths modelled here. -/
def pyStr : PyVal → String
  | .str s => s
  | .tup _ => "(tuple)"
  | .other => "(other)"

/-- `_build_tuple(val)`: a 2-element tuple is returned as is, a string `s`
becomes `(s, s)`, anything else raises `ValueError`. -/
def _build_tuple (val : PyVal) : Except PyErr (PyVal × PyVal) :=
  match val with
  | .tup [a, b] => Except.ok (a, b)
  | .str s => Except.ok (.str s, .str s)
  | _ => Except.error PyErr.valueError

/-- The module-level cache `_cached_result`, a Python dict from cache key
to result bundle. -/
abbrev Cache := List (String × Dct)

/-- Python truthiness of the `cache_key` argument: `None` and the empty
string are falsy. -/
def keyTruthy : Option String → Bool
  | some s => s ≠ ""
  | none => false

/-- The loop computing `services` in `info`: for each entry of the request
list, `_build_tuple(entry)` (whose `ValueError` aborts the whole call),
then one `get_service` fetch. Returns the list of per-entry results in
order, paired with the trace of URLs fetched (in fetch order) up to the
point the loop finished or raised. -/
def runServices (store : Store) (etcd_url : String) :
    List PyVal → Except PyErr (List (Option Dct)) × List String
  | [] => (Except.ok [], [])
  | entry :: rest =>
    match _build_tuple entry with
    | Except.error e => (Except.error e, [])
    | Except.ok (n, a) =>
      let url := service_url etcd_url (pyStr n)
      let r := get_service store etcd_url (pyStr n) (pyStr a)
      match runServices store etcd_url rest with
      | (Except.ok l, tr) => (Except.ok (r :: l), url :: tr)
      | (Except.error e, tr) => (Except.error e, url :: tr)

/-- The loop computing `conf` in `info`: like `runServices` but calling
`get_conf`, which itself may raise (nothing catches what `build_conf`
throws). -/
def runConfs (store : Store) (etcd_url : String) :
    List PyVal → Except PyErr (List (Option Dct)) × List String
  | [] => (Except.ok [], [])
  | entry :: rest =>
    match _build_tuple entry with
    | Except.error e => (Except.error e, [])
    | Except.ok (n, a) =>
      let url := conf_url etcd_url (pyStr n)
      match get_conf store etcd_url (pyStr n) (pyStr a) with
      | Except.error e => (Except.error e, [url])
      | Except.ok r =>
        match runConfs store etcd_url rest with
        | (Except.ok l, tr) => (Except.ok (r :: l), url :: tr)
        | (Except.error e, tr) => (Except.error e, url :: tr)

/-- `filter(lambda v: v, results)`: drop the `None` results (every dict a
resolver returns is a non-empty singleton, hence truthy). -/
def filterTruthy (l : List (Option Dct)) : List Dct :=
  l.filterMap id

/-- `info(etcd_url, service_names, conf_names, cache_key, force_refresh)`
run against `store` with the module cache in state `cache`. Returns the
outcome (result bundle or uncaught exception), the cache state after the
call, and the trace of store URLs fetched, in order. Mirrors the source:
cache hit short-circuit, the services loop, the conf loop, the final
`merge_dicts({'services': services}, conf)`, and the cache store when
`cache_key` is truthy. -/
def info (store : Store) (etcd_url : String)
    (service_names conf_names : Option (List PyVal))
    (cache_key : Option String) (force_refresh : Bool) (cache : Cache) :
    Except PyErr Dct × Cache × List String :=
  match
    (if ¬force_refresh ∧ keyTruthy cache_key then
      dget cache (cache_key.getD "")
    else none) with
  | some cached => (Except.ok cached, cache, [])
  | none =>
    match runServices store etcd_url (service_names.getD []) with
    | (Except.error e, str) => (Except.error e, cache, str)
    | (Except.ok sresults, str) =>
      let services := merge_dicts (filterTruthy sresults)
      match runConfs store etcd_url (conf_names.getD []) with
      | (Except.error e, ctr) => (Except.error e, cache, str ++ ctr)
      | (Except.ok cresults, ctr) =>
        let conf := merge_dicts (filterTruthy cresults)
        let result := merge_dicts [[("services", Val.d services)], conf]
        let cache2 :=
          if keyTruthy cache_key then
            dinsert cache (cache_key.getD "") result
          else cache
        (Except.ok result, cache2, str ++ ctr)

mutual
/-- Well-formedness of a fetched config tree node, in the sense the spec's
"well-formed tree" uses: the node has a `key`, and it is either a
directory (`dir` true with a non-empty `nodes` list whose members are all
well-formed) or a leaf carrying a `value`. -/
def wfNode : CNode → Bool
  | .mk key value dir nodes =>
    key.isSome &&
    (match dir, nodes with
     | some true, some (n :: ns) => wfList (n :: ns)
     | _, _ => value.isSome)

def wfList : List CNode → Bool
  | [] => true
  | n :: rest => wfNode n && wfList rest
end

mutual
/-- The resolved body the spec describes for a well-formed node: a
directory resolves to the shallow merge (last-wins) of its children's
single-key resolutions, a leaf resolves to its scalar value. -/
def specConfVal : CNode → Val
  | .mk _ value dir nodes =>
    match dir, nodes with
    | some true, some (n :: ns) => Val.d (specMerge (n :: ns) [])
    | _, _ => Val.s (value.getD "")

/-- The shallow merge of the single-key resolutions of a list of
well-formed children into an accumulator dict. -/
def specMerge : List CNode → Dct → Dct
  | [], m => m
  | n :: rest, m =>
    specMerge rest (dupdate m [(lastSeg ((CNode.key n).getD ""), specConfVal n)])
end

/-! ## Characterizations of single service entries -/

/-- The malformation conditions named by the spec for one service leaf:
a missing `key` or `value` field, a value lacking a colon (fewer than two
colon-separated segments), or a second segment that does not parse as an
integer. -/
def badLeaf (e : SEntry) : Bool :=
  e.key.isNone ||
  match e.value with
  | none => true
  | some v =>
    decide ((pySplit ':' v).length < 2) ||
      (pyInt? ((pySplit ':' v).getD 1 "")).isNone

/-- A well-formed service leaf in the spec's sense: it has a `key` and a
value of the form `host:port` (exactly one colon) whose port segment
parses as an integer. -/
def wfLeaf (e : SEntry) : Bool :=
  match e.key, e.value with
  | some _, some v =>
    match pySplit ':' v with
    | [_, p] => (pyInt? p).isSome
    | _ => false
  | _, _ => false

/-- The replica pair a well-formed leaf turns into: keyed by the last path
segment of its key, with the host before the first colon and the parsed
integer port. -/
def entryPair (e : SEntry) : String × Val :=
  (lastSeg (e.key.getD ""),
   Val.d [("host", Val.s ((pySplit ':' (e.value.getD "")).headD "")),
          ("port", Val.i ((pyInt? ((pySplit ':' (e.value.getD "")).getD 1 "")).getD 0))])

/-! ## Request-list characterizations -/

/-- A malformed request entry in the spec's sense: neither a bare string
name nor a 2-element tuple. -/
def badReq : PyVal → Bool
  | .str _ => false
  | .tup [_, _] => false
  | _ => true

/-! ## Concrete inputs used by witnesses and counterexamples -/

/-- C1 failing input: a fetched config tree whose root directory holds a
well-formed leaf child and an empty-directory child. -/
def c1tree : CNode :=
  CNode.mk (some "/project-conf/app") none (some true)
    (some [ CNode.mk (some "/project-conf/app/a") (some "x") none none
          , CNode.mk (some "/project-conf/app/empty") none (some true) none ])

def c1store : Store :=
  { svc := fun _ => SvcFetch.missing
  , conf := fun url =>
      if url = conf_url "http://e" "app" then ConfFetch.node c1tree
      else ConfFetch.noNode }

def c2store : Store :=
  { svc := fun url =>
      if url = service_url "http://e" "svc" then
        SvcFetch.entries
          [ ⟨some "/backends/svc/good", some "10.0.0.1:27017"⟩
          , ⟨some "/backends/svc/bad", some "nocolon"⟩ ]
      else SvcFetch.missing
  , conf := fun _ => ConfFetch.noNode }

/-- Two well-formed service leaves whose keys share the last path segment. -/
def c4e1 : SEntry := ⟨some "/backends/svc/r1", some "h1:1"⟩

def c4e2 : SEntry := ⟨some "/backends/svc/r1", some "h2:2"⟩

def c4store : Store :=
  { svc := fun url =>
      if url = service_url "http://e" "svc" then SvcFetch.entries [c4e1, c4e2]
      else SvcFetch.missing
  , conf := fun _ => ConfFetch.noNode }

/-- Two well-formed service leaves with distinct last path segments. -/
def c4w1 : SEntry := ⟨some "/backends/svc/r1", some "h1:1"⟩

def c4w2 : SEntry := ⟨some "/backends/svc/r2", some "h2:2"⟩

def c4wstore : Store :=
  { svc := fun url =>
      if url = service_url "http://e" "svc" then SvcFetch.entries [c4w1, c4w2]
      else SvcFetch.missing
  , conf := fun _ => ConfFetch.noNode }

def c5store : Store :=
  { svc := fun url =>
      if url = service_url "http://e" "good" then
        SvcFetch.entries [⟨some "/backends/good/r", some "h:1"⟩]
      else SvcFetch.missing
  , conf := fun _ => ConfFetch.noNode }

def c8store : Store :=
  { svc := fun url =>
      if url = service_url "http://e" "okService" then
        SvcFetch.entries [⟨some "/backends/okService/r", some "h:1"⟩]
      else SvcFetch.missing
  , conf := fun _ => ConfFetch.noNode }

def c6store : Store :=
  { svc := fun url =>
      if url = service_url "http://e" "svcA" then
        SvcFetch.entries [⟨some "/backends/svcA/r", some "a:1"⟩]
      else if url = service_url "http://e" "svcB" then
        SvcFetch.entries [⟨some "/backends/svcB/r", some "b:2"⟩]
      else SvcFetch.missing
  , conf := fun url =>
      if url = conf_url "http://e" "cname" then
        ConfFetch.node (CNode.mk (some "/project-conf/cname") (some "override") none none)
      else ConfFetch.noNode }

/-! ## Claim C7 -/

/-- C7 example tree: root directory with body {a: {b: {c: "v"}}}. -/
def c7tree : CNode :=
  CNode.mk (some "/project-conf/app") none (some true)
    (some [ CNode.mk (some "/project-conf/app/a") none (some true)
      (some [ CNode.mk (some "/project-conf/app/a/b") none (some true)
        (some [ CNode.mk (some "/project-conf/app/a/b/c") (some "v") none none ]) ]) ])

def c7store : Store :=
  { svc := fun _ => SvcFetch.missing
  , conf := fun url =>
      if url = conf_url "http://e" "app" then ConfFetch.node c7tree
      else ConfFetch.noNode }

/-! ## Claim C3 -/

def c3storeA : Store :=
  { svc := fun url =>
      if url = service_url "http://e" "s" then
        SvcFetch.entries [⟨some "/backends/s/r", some "h:1"⟩]
      else SvcFetch.missing
  , conf := fun _ => ConfFetch.noNode }

/-- The same store after a mutation: the service's port changed. -/
def c3storeB : Store :=
  { svc := fun url =>
      if url = service_url "http://e" "s" then
        SvcFetch.entries [⟨some "/backends/s/r", some "h:2"⟩]
      else SvcFetch.missing
  , conf := fun _ => ConfFetch.noNode }

def c3bundle : Dct :=
  [("services", Val.d [("s",
    Val.d [("r", Val.d [("host", Val.s "h"), ("port", Val.i 1)])])])]

/-! ## Helper lemmas about the dict model -/

theorem dget_append_of_not_mem {α : Type} (d e : List (String × α)) (k : String)
    (h : dget d k = none) : dget (d ++ e) k = dget e k := by
  induction d with
  | nil => simp
  | cons p rest ih =>
    obtain ⟨k2, v⟩ := p
    by_cases hk : k2 = k
    · simp [dget, hk] at h
    · simp [dget, hk] at h ⊢
      exact ih h

theorem dget_append_left {α : Type} (d e : List (String × α)) (k : String)
    (v : α) (h : dget d k = some v) : dget (d ++ e) k = some v := by
  induction d with
  | nil => simp [dget] at h
  | cons p rest ih =>
    obtain ⟨k2, v2⟩ := p
    by_cases hk : k2 = k
    · simp [dget, hk] at h ⊢
      exact h
    · simp [dget, hk] at h ⊢
      exact ih h

theorem any_eq_false_dget {α : Type} (d : List (String × α)) (k : String)
    (h : d.any (fun p => p.1 = k) = false) : dget d k = none := by
  induction d with
  | nil => rfl
  | cons p rest ih =>
    simp only [List.any_cons, Bool.or_eq_false_iff] at h
    obtain ⟨k2, v2⟩ := p
    have hk : k2 ≠ k := by
      intro hc
      simp [hc] at h
    simp [dget, hk]
    exact ih h.2

theorem dget_map_overwrite {α : Type} (d : List (String × α)) (k : String) (v : α)
    (hmem : d.any (fun p => p.1 = k) = true) :
    dget (d.map (fun p => if p.1 = k then (k, v) else p)) k = some v := by
  induction d with
  | nil => simp at hmem
  | cons p rest ih =>
    obtain ⟨k3, v3⟩ := p
    by_cases hk3 : k3 = k
    · subst hk3
      simp only [List.map_cons]
      simp [dget]
    · simp only [List.any_cons] at hmem
      have hrest : rest.any (fun p => p.1 = k) = true := by
        rcases Bool.or_eq_true_iff.mp hmem with h1 | h1
        · exact absurd (by simpa using h1) hk3
        · exact h1
      simp only [List.map_cons]
      rw [if_neg (by simpa using hk3)]
      simp only [dget]
      rw [if_neg hk3]
      exact ih hrest

theorem dget_map_other {α : Type} (d : List (String × α)) (k k2 : String) (v : α)
    (hne : k2 ≠ k) :
    dget (d.map (fun p => if p.1 = k then (k, v) else p)) k2 = dget d k2 := by
  induction d with
  | nil => rfl
  | cons p rest ih =>
    obtain ⟨k3, v3⟩ := p
    simp only [List.map_cons]
    by_cases hk3 : k3 = k
    · subst hk3
      rw [if_pos rfl]
      simp only [dget]
      rw [if_neg (Ne.symm hne), if_neg (fun h => hne h.symm)]
      exact ih
    · rw [if_neg (by simpa using hk3)]
      simp only [dget]
      exact if_congr Iff.rfl rfl ih

theorem dget_dinsert {α : Type} (d : List (String × α)) (k k2 : String) (v : α) :
    dget (dinsert d k v) k2 = if k2 = k then some v else dget d k2 := by
  unfold dinsert
  by_cases hany : d.any (fun p => p.1 = k)
  · rw [if_pos hany]
    by_cases hk2 : k2 = k
    · subst hk2
      rw [if_pos rfl]
      exact dget_map_overwrite d k2 v hany
    · rw [if_neg hk2]
      exact dget_map_other d k k2 v hk2
  · simp only [Bool.not_eq_true] at hany
    rw [if_neg (by simp [hany])]
    by_cases hk2 : k2 = k
    · subst hk2
      rw [if_pos rfl, dget_append_of_not_mem _ _ _ (any_eq_false_dget _ _ hany)]
      simp [dget]
    · rw [if_neg hk2]
      cases hd : dget d k2 with
      | some w => exact dget_append_left _ _ _ _ hd
      | none =>
        rw [dget_append_of_not_mem _ _ _ hd]
        have hne : ¬k = k2 := fun h => hk2 h.symm
        simp [dget, hne]

theorem badLeaf_not_ok (e : SEntry) (h : badLeaf e = true) :
    ∀ y, get_service_entry e ≠ Except.ok y := by
  intro y
  cases hk : e.key with
  | none => simp [get_service_entry, hk]
  | some kRaw =>
    cases hv : e.value with
    | none => simp [get_service_entry, hk, hv]
    | some vRaw =>
      simp only [badLeaf, hk, hv, Option.isNone_some, Bool.false_or] at h
      rcases hsplit : pySplit ':' vRaw with _ | ⟨a, _ | ⟨b, rest⟩⟩
      · simp [get_service_entry, hk, hv, hsplit, List.get?]
      · simp [get_service_entry, hk, hv, hsplit, List.get?]
      · rw [hsplit] at h
        have hint : pyInt? b = none := by
          rcases Bool.or_eq_true_iff.mp h with h1 | h1
          · exact absurd (of_decide_eq_true h1) (by simp)
          · simpa [List.getD, List.get?, Option.isNone_iff_eq_none] using h1
        simp [get_service_entry, hk, hv, hsplit, hint, List.get?]

theorem wfLeaf_ok (e : SEntry) (h : wfLeaf e = true) :
    get_service_entry e = Except.ok (entryPair e) := by
  cases hk : e.key with
  | none => simp [wfLeaf, hk] at h
  | some kRaw =>
    cases hv : e.value with
    | none => simp [wfLeaf, hk, hv] at h
    | some vRaw =>
      simp only [wfLeaf, hk, hv] at h
      rcases hsplit : pySplit ':' vRaw with _ | ⟨a, _ | ⟨b, _ | ⟨c, rest2⟩⟩⟩ <;>
        rw [hsplit] at h
      · simp at h
      · simp at h
      · cases hint : pyInt? b with
        | none => simp [hint] at h
        | some port =>
          simp [get_service_entry, entryPair, hk, hv, hsplit, hint, List.get?, List.getD]
      · simp at h

/-! ## mapExcept lemmas -/

theorem mapExcept_ok_of_all {ε α β : Type} (f : α → Except ε β) (g : α → β) :
    ∀ l : List α, (∀ x ∈ l, f x = Except.ok (g x)) →
    mapExcept f l = Except.ok (l.map g) := by
  intro l
  induction l with
  | nil => intro _; rfl
  | cons x rest ih =>
    intro hall
    have hx := hall x (by simp)
    have hrest := ih (fun y hy => hall y (by simp [hy]))
    simp [mapExcept, hx, hrest]

theorem mapExcept_error_of_mem {ε α β : Type} (f : α → Except ε β) :
    ∀ (l : List α) (x : α), x ∈ l → (∀ y, f x ≠ Except.ok y) →
    ∃ e, mapExcept f l = Except.error e := by
  intro l
  induction l with
  | nil => intro x hx; simp at hx
  | cons h rest ih =>
    intro x hx hbad
    rcases List.mem_cons.mp hx with heq | hmem
    · subst heq
      cases hfx : f x with
      | error e => exact ⟨e, by simp [mapExcept, hfx]⟩
      | ok y => exact absurd hfx (hbad y)
    · cases hfh : f h with
      | error e => exact ⟨e, by simp [mapExcept, hfh]⟩
      | ok y =>
        obtain ⟨e, he⟩ := ih x hmem hbad
        exact ⟨e, by simp [mapExcept, hfh, he]⟩

/-! ## pyDictOf on distinct keys -/

theorem foldl_dinsert_fresh {α : Type} :
    ∀ (l acc : List (String × α)),
    (∀ p ∈ l, acc.any (fun q => q.1 = p.1) = false) →
    (l.map Prod.fst).Nodup →
    l.foldl (fun a p => dinsert a p.1 p.2) acc = acc ++ l := by
  intro l
  induction l with
  | nil => intro acc _ _; simp
  | cons p rest ih =>
    intro acc hfresh hnodup
    obtain ⟨k, v⟩ := p
    simp only [List.foldl_cons]
    have hfk : acc.any (fun q => q.1 = k) = false := hfresh (k, v) (by simp)
    have hins : dinsert acc k v = acc ++ [(k, v)] := by
      unfold dinsert
      rw [if_neg (by simp [hfk])]
    rw [hins]
    simp only [List.map_cons, List.nodup_cons] at hnodup
    have hfresh2 : ∀ q ∈ rest, (acc ++ [(k, v)]).any (fun r => r.1 = q.1) = false := by
      intro q hq
      rw [List.any_append]
      have h1 : acc.any (fun r => r.1 = q.1) = false := hfresh q (by simp [hq])
      have h2 : k ≠ q.1 := by
        intro hc
        exact hnodup.1 (hc ▸ List.mem_map_of_mem Prod.fst hq)
      simp [h1, h2]
    rw [ih (acc ++ [(k, v)]) hfresh2 hnodup.2]
    simp

theorem pyDictOf_nodup {α : Type} (l : List (String × α))
    (hnodup : (l.map Prod.fst).Nodup) : pyDictOf l = l := by
  have := foldl_dinsert_fresh l [] (by simp) hnodup
  simpa [pyDictOf] using this

theorem dget_of_nodup {α : Type} :
    ∀ (l : List (String × α)) (k : String) (v : α),
    (l.map Prod.fst).Nodup → (k, v) ∈ l → dget l k = some v := by
  intro l
  induction l with
  | nil => intro k v _ hmem; simp at hmem
  | cons p rest ih =>
    intro k v hnodup hmem
    obtain ⟨k2, v2⟩ := p
    simp only [List.map_cons, List.nodup_cons] at hnodup
    rcases List.mem_cons.mp hmem with heq | hmem2
    · injection heq with h1 h2
      subst h1; subst h2
      simp [dget]
    · by_cases hk : k2 = k
      · subst hk
        exact absurd (List.mem_map_of_mem Prod.fst hmem2) hnodup.1
      · simp only [dget, if_neg hk]
        exact ih k v hnodup.2 hmem2

/-! ## get_service characterizations -/

theorem get_service_none_of_bad (store : Store) (u n a : String) (l : List SEntry)
    (hresp : store.svc (service_url u n) = SvcFetch.entries l)
    (e : SEntry) (hmem : e ∈ l) (hbad : badLeaf e = true) :
    get_service store u n a = none := by
  obtain ⟨err, herr⟩ :=
    mapExcept_error_of_mem get_service_entry l e hmem (badLeaf_not_ok e hbad)
  simp [get_service, hresp, herr]

theorem get_service_wf (store : Store) (u n a : String) (l : List SEntry)
    (hresp : store.svc (service_url u n) = SvcFetch.entries l)
    (hwf : ∀ e ∈ l, wfLeaf e = true)
    (hdistinct : (l.map (fun e => lastSeg (e.key.getD ""))).Nodup) :
    get_service store u n a = some [(a, Val.d (l.map entryPair))] := by
  have hmap := mapExcept_ok_of_all get_service_entry entryPair l
    (fun e he => wfLeaf_ok e (hwf e he))
  have hkeys : (l.map entryPair).map Prod.fst =
      l.map (fun e => lastSeg (e.key.getD "")) := by
    rw [List.map_map]
    rfl
  have hnodup : ((l.map entryPair).map Prod.fst).Nodup := by
    rw [hkeys]; exact hdistinct
  simp [get_service, hresp, hmap, pyDictOf_nodup _ hnodup]

/-! ## build_conf on well-formed trees -/

theorem wfList_mem : ∀ (l : List CNode), wfList l = true → ∀ c ∈ l, wfNode c = true := by
  intro l
  induction l with
  | nil => intro _ c hc; simp at hc
  | cons n rest ih =>
    intro h c hc
    rw [wfList] at h
    rw [Bool.and_eq_true] at h
    rcases List.mem_cons.mp hc with rfl | hm
    · exact h.1
    · exact ih h.2 c hm

theorem build_children_spec :
    ∀ (l : List CNode),
    (∀ c ∈ l, build_conf c none =
      Except.ok (some [(lastSeg ((CNode.key c).getD ""), specConfVal c)])) →
    ∀ m, build_children l m = Except.ok (specMerge l m) := by
  intro l
  induction l with
  | nil => intro _ m; rfl
  | cons n rest ih =>
    intro hall m
    have hn := hall n (by simp)
    rw [build_children, hn, specMerge]
    exact ih (fun c hc => hall c (by simp [hc])) _

theorem build_conf_wf_aux :
    ∀ (fuel : Nat) (n : CNode), sizeOf n ≤ fuel → wfNode n = true →
    build_conf n none =
      Except.ok (some [(lastSeg ((CNode.key n).getD ""), specConfVal n)]) ∧
    ∀ a : String, a ≠ "" →
      build_conf n (some a) = Except.ok (some [(a, specConfVal n)]) := by
  intro fuel
  induction fuel with
  | zero =>
    intro n hsz
    exfalso
    cases n with
    | mk key value dir nodes =>
      have := CNode.mk.sizeOf_spec key value dir nodes
      omega
  | succ fuel ih =>
    intro n hsz hwf
    obtain ⟨key, value, dir, nodes⟩ := n
    cases key with
    | none => simp [wfNode] at hwf
    | some k =>
      rcases dir with _ | b
      · -- dir field absent: leaf branch
        simp only [wfNode, Option.isSome_some, Bool.true_and] at hwf
        obtain ⟨v, rfl⟩ := Option.isSome_iff_exists.mp hwf
        refine ⟨?_, fun a ha => ?_⟩
        · simp [build_conf, truthyOpt, specConfVal, CNode.key]
        · simp [build_conf, truthyOpt, ha, specConfVal, CNode.key]
      · cases b
        · -- dir is False: leaf branch
          simp only [wfNode, Option.isSome_some, Bool.true_and] at hwf
          obtain ⟨v, rfl⟩ := Option.isSome_iff_exists.mp hwf
          refine ⟨?_, fun a ha => ?_⟩
          · simp [build_conf, truthyOpt, specConfVal, CNode.key]
          · simp [build_conf, truthyOpt, ha, specConfVal, CNode.key]
        · -- dir is True: split on nodes
          rcases nodes with _ | ⟨_ | ⟨n1, ns⟩⟩
          · simp only [wfNode, Option.isSome_some, Bool.true_and] at hwf
            obtain ⟨v, rfl⟩ := Option.isSome_iff_exists.mp hwf
            refine ⟨?_, fun a ha => ?_⟩
            · simp [build_conf, truthyOpt, specConfVal, CNode.key]
            · simp [build_conf, truthyOpt, ha, specConfVal, CNode.key]
          · simp only [wfNode, Option.isSome_some, Bool.true_and] at hwf
            obtain ⟨v, rfl⟩ := Option.isSome_iff_exists.mp hwf
            refine ⟨?_, fun a ha => ?_⟩
            · simp [build_conf, truthyOpt, specConfVal, CNode.key]
            · simp [build_conf, truthyOpt, ha, specConfVal, CNode.key]
          · -- non-empty directory branch
            simp only [wfNode, Option.isSome_some, Bool.true_and] at hwf
            have hfuel : ∀ c ∈ n1 :: ns, sizeOf c ≤ fuel := by
              intro c hc
              have h1 : sizeOf c < sizeOf (n1 :: ns) := List.sizeOf_lt_of_mem hc
              have h2 := CNode.mk.sizeOf_spec (some k) value (some true)
                (some (n1 :: ns))
              have h3 : sizeOf (some (n1 :: ns) : Option (List CNode)) =
                  1 + sizeOf (n1 :: ns) := by simp
              omega
            have hall : ∀ c ∈ n1 :: ns, build_conf c none =
                Except.ok (some [(lastSeg ((CNode.key c).getD ""), specConfVal c)]) :=
              fun c hc =>
                (ih c (hfuel c hc) (wfList_mem (n1 :: ns) hwf c hc)).1
            have hchildren := build_children_spec (n1 :: ns) hall []
            refine ⟨?_, fun a ha => ?_⟩
            · simp [build_conf, truthyOpt, hchildren, specConfVal, CNode.key]
            · simp [build_conf, truthyOpt, ha, hchildren, specConfVal, CNode.key]

theorem build_conf_wf_none (n : CNode) (h : wfNode n = true) :
    build_conf n none =
      Except.ok (some [(lastSeg ((CNode.key n).getD ""), specConfVal n)]) :=
  (build_conf_wf_aux (sizeOf n) n le_rfl h).1

theorem build_conf_wf_alias (n : CNode) (h : wfNode n = true) (a : String)
    (ha : a ≠ "") :
    build_conf n (some a) = Except.ok (some [(a, specConfVal n)]) :=
  (build_conf_wf_aux (sizeOf n) n le_rfl h).2 a ha

theorem badReq_error (e : PyVal) (h : badReq e = true) :
    _build_tuple e = Except.error PyErr.valueError := by
  match e with
  | .str s => simp [badReq] at h
  | .tup [] => rfl
  | .tup [a] => rfl
  | .tup [a, b] => simp [badReq] at h
  | .tup (a :: b :: c :: rest) => rfl
  | .other => rfl

theorem build_tuple_cases (x : PyVal) :
    (∃ p, _build_tuple x = Except.ok p) ∨
    _build_tuple x = Except.error PyErr.valueError := by
  match x with
  | .str s => exact Or.inl ⟨_, rfl⟩
  | .tup [a, b] => exact Or.inl ⟨_, rfl⟩
  | .tup [] => exact Or.inr rfl
  | .tup [a] => exact Or.inr rfl
  | .tup (a :: b :: c :: r) => exact Or.inr rfl
  | .other => exact Or.inr rfl

theorem runServices_error_of_bad (store : Store) (u : String) :
    ∀ l : List PyVal, (∃ e ∈ l, badReq e = true) →
    (runServices store u l).1 = Except.error PyErr.valueError := by
  intro l
  induction l with
  | nil =>
    rintro ⟨e, he, _⟩
    simp at he
  | cons x rest ih =>
    rintro ⟨e, he, hbad⟩
    rcases build_tuple_cases x with ⟨p, hp⟩ | herr
    · obtain ⟨n2, a2⟩ := p
      rcases List.mem_cons.mp he with rfl | hmem
      · rw [badReq_error e hbad] at hp
        cases hp
      · have hrest := ih ⟨e, hmem, hbad⟩
        rcases hrs : runServices store u rest with ⟨sres, tr⟩
        rw [hrs] at hrest
        simp only at hrest
        subst hrest
        simp [runServices, hp, hrs]
    · simp [runServices, herr]

theorem runConfs_error_of_bad (store : Store) (u : String) :
    ∀ l : List PyVal, (∃ e ∈ l, badReq e = true) →
    ∃ err, (runConfs store u l).1 = Except.error err := by
  intro l
  induction l with
  | nil =>
    rintro ⟨e, he, _⟩
    simp at he
  | cons x rest ih =>
    rintro ⟨e, he, hbad⟩
    rcases build_tuple_cases x with ⟨p, hp⟩ | herr
    · obtain ⟨n2, a2⟩ := p
      cases hgc : get_conf store u (pyStr n2) (pyStr a2) with
      | error e2 => exact ⟨e2, by simp [runConfs, hp, hgc]⟩
      | ok r =>
        rcases List.mem_cons.mp he with rfl | hmem
        · rw [badReq_error e hbad] at hp
          cases hp
        · obtain ⟨err, herr2⟩ := ih ⟨e, hmem, hbad⟩
          rcases hrs : runConfs store u rest with ⟨cres, tr⟩
          rw [hrs] at herr2
          simp only at herr2
          subst herr2
          exact ⟨err, by simp [runConfs, hp, hgc, hrs]⟩
    · exact ⟨PyErr.valueError, by simp [runConfs, herr]⟩

/-! ## Claim C1 -/

/-- C1 (the code contradicts the claim): a config tree with an empty
directory below the root does not degrade gracefully — `build_conf`
returns None for the empty-directory child and the parent loop's
`m.update(None)` raises TypeError, so the whole `get_conf` call raises
instead of resolving the remaining tree. The second conjunct shows the
well-formed sibling on its own resolves fine, so it is precisely the
malformed descendant that kills the lookup. -/
theorem C1_empty_descendant_raises :
    get_conf c1store "http://e" "app" "cfg" = Except.error PyErr.typeError ∧
    build_conf (CNode.mk (some "/project-conf/app/a") (some "x") none none) none =
      Except.ok (some [("a", Val.s "x")]) := by
  constructor
  · decide
  · decide

/-! ## Claim C2 -/

/-- C2: if any child leaf of a service listing has a missing key or value
field, a value lacking a colon, or a second colon-separated segment that
does not parse as an integer, `get_service` returns None (absent) for the
entire service, regardless of valid siblings. -/
theorem C2_bad_leaf_makes_service_absent (store : Store)
    (etcd_url service_name aliasName : String) (l : List SEntry) (e : SEntry)
    (hresp : store.svc (service_url etcd_url service_name) = SvcFetch.entries l)
    (hmem : e ∈ l) (hbad : badLeaf e = true) :
    get_service store etcd_url service_name aliasName = none :=
  get_service_none_of_bad store etcd_url service_name aliasName l hresp e hmem hbad

theorem C2_bad_leaf_makes_service_absent_witness :
    badLeaf ⟨some "/backends/svc/bad", some "nocolon"⟩ = true ∧
    get_service c2store "http://e" "svc" "x" = none :=
  ⟨by decide,
   C2_bad_leaf_makes_service_absent c2store "http://e" "svc" "x"
     [ ⟨some "/backends/svc/good", some "10.0.0.1:27017"⟩
     , ⟨some "/backends/svc/bad", some "nocolon"⟩ ]
     ⟨some "/backends/svc/bad", some "nocolon"⟩
     rfl (by decide) (by decide)⟩

/-! ## Claim C4 -/

/-- C4 counterexample: a directory with two well-formed leaf children (N=2)
whose keys share the last path segment resolves to a single replica entry,
not two — the claim's "exactly N replica entries" fails. -/
theorem C4_counterexample :
    wfLeaf c4e1 = true ∧ wfLeaf c4e2 = true ∧
    [c4e1, c4e2].length = 2 ∧
    get_service c4store "http://e" "svc" "a" =
      some [("a", Val.d [("r1", Val.d [("host", Val.s "h2"), ("port", Val.i 2)])])] ∧
    ([("r1", Val.d [("host", Val.s "h2"), ("port", Val.i 2)])] : Dct).length = 1 := by
  refine ⟨by decide, by decide, by decide, by decide, by decide⟩

/-- C4 (amended with the counterexample's constraint: the leaves' last path
segments must be pairwise distinct): a well-formed directory listing of N
leaves resolves to a single-alias map of exactly N replica entries, each
keyed by the leaf key's last path segment, host before the first colon,
port the parsed integer. -/
theorem C4_wf_distinct_replicas (store : Store)
    (etcd_url service_name aliasName : String) (l : List SEntry)
    (hresp : store.svc (service_url etcd_url service_name) = SvcFetch.entries l)
    (hwf : ∀ e ∈ l, wfLeaf e = true)
    (hdistinct : (l.map (fun e => lastSeg (e.key.getD ""))).Nodup) :
    get_service store etcd_url service_name aliasName =
      some [(aliasName, Val.d (l.map entryPair))] ∧
    (l.map entryPair).length = l.length ∧
    ∀ e ∈ l, dget (l.map entryPair) (lastSeg (e.key.getD "")) =
      some (Val.d
        [("host", Val.s ((pySplit ':' (e.value.getD "")).headD "")),
         ("port", Val.i ((pyInt? ((pySplit ':' (e.value.getD "")).getD 1 "")).getD 0))]) := by
  refine ⟨get_service_wf store _ _ _ l hresp hwf hdistinct, by simp, ?_⟩
  intro e he
  have hkeys : (l.map entryPair).map Prod.fst =
      l.map (fun e => lastSeg (e.key.getD "")) := by
    rw [List.map_map]; rfl
  have hnodup : ((l.map entryPair).map Prod.fst).Nodup := by
    rw [hkeys]; exact hdistinct
  have hmem : entryPair e ∈ l.map entryPair := List.mem_map_of_mem entryPair he
  exact dget_of_nodup (l.map entryPair) (entryPair e).1 (entryPair e).2 hnodup hmem

theorem C4_wf_distinct_replicas_witness :
    wfLeaf c4w1 = true ∧ wfLeaf c4w2 = true ∧
    ([c4w1, c4w2].map (fun e => lastSeg (e.key.getD ""))).Nodup ∧
    get_service c4wstore "http://e" "svc" "a" =
      some [("a", Val.d ([c4w1, c4w2].map entryPair))] :=
  ⟨by decide, by decide, by decide,
   (C4_wf_distinct_replicas c4wstore "http://e" "svc" "a" [c4w1, c4w2]
     rfl (by decide) (by decide)).1⟩

/-! ## Claim C9 -/

/-- C9: `_build_tuple` maps a bare string s to (s, s), returns a 2-element
tuple unchanged, and raises ValueError on every other input shape. -/
theorem C9_build_tuple_normalization :
    (∀ s : String, _build_tuple (PyVal.str s) = Except.ok (PyVal.str s, PyVal.str s)) ∧
    (∀ a b : PyVal, _build_tuple (PyVal.tup [a, b]) = Except.ok (a, b)) ∧
    (∀ v : PyVal, (∀ s, v ≠ PyVal.str s) → (∀ a b, v ≠ PyVal.tup [a, b]) →
      _build_tuple v = Except.error PyErr.valueError) := by
  refine ⟨fun s => rfl, fun a b => rfl, ?_⟩
  intro v hs ht
  match v with
  | .str s => exact absurd rfl (hs s)
  | .tup [] => rfl
  | .tup [a] => rfl
  | .tup [a, b] => exact absurd rfl (ht a b)
  | .tup (a :: b :: c :: rest) => rfl
  | .other => rfl

theorem C9_build_tuple_normalization_witness :
    _build_tuple PyVal.other = Except.error PyErr.valueError ∧
    _build_tuple (PyVal.str "svc") = Except.ok (PyVal.str "svc", PyVal.str "svc") :=
  ⟨C9_build_tuple_normalization.2.2 PyVal.other
     (fun _ h => PyVal.noConfusion h) (fun _ _ h => PyVal.noConfusion h),
   C9_build_tuple_normalization.1 "svc"⟩

/-! ## Claim C10 -/

/-- C10: when cache_key is None or the empty string (both falsy in
Python), the module cache is neither read nor written: the cache after
the call equals the cache before, and the outcome and fetch trace are
computed fresh from the store, independent of the cache contents. -/
theorem C10_falsy_cache_key_frame (store : Store) (u : String)
    (sns cns : Option (List PyVal)) (ck : Option String) (fr : Bool)
    (cache cache2 : Cache) (h : ck = none ∨ ck = some "") :
    (info store u sns cns ck fr cache).2.1 = cache ∧
    (info store u sns cns ck fr cache).1 = (info store u sns cns ck fr cache2).1 ∧
    (info store u sns cns ck fr cache).2.2 = (info store u sns cns ck fr cache2).2.2 := by
  have hck : keyTruthy ck = false := by rcases h with rfl | rfl <;> rfl
  have hcond : ¬(¬fr = true ∧ keyTruthy ck = true) := by simp [hck]
  unfold info
  simp only [if_neg hcond]
  rcases hrs : runServices store u (sns.getD []) with ⟨sres, str⟩
  cases sres with
  | error e => simp [hck]
  | ok sresults =>
    rcases hrc : runConfs store u (cns.getD []) with ⟨cres, ctr⟩
    cases cres with
    | error e => simp [hck]
    | ok cresults => simp [hck]

theorem C10_falsy_cache_key_frame_witness :
    ((none : Option String) = none ∨ (none : Option String) = some "") ∧
    (info c5store "http://e" (some [PyVal.str "good"]) none none false
      [("k", [("old", Val.s "old")])]).2.1 = [("k", [("old", Val.s "old")])] :=
  ⟨Or.inl rfl,
   (C10_falsy_cache_key_frame c5store "http://e" (some [PyVal.str "good"]) none
     none false [("k", [("old", Val.s "old")])] [] (Or.inl rfl)).1⟩

/-! ## Claim C8 -/

/-- C8: a service request that resolves to absent is silently dropped:
with one resolvable and one unresolvable request, the bundle's services
map holds exactly the resolvable alias and no error is raised. -/
theorem C8_absent_dropped (store : Store) (u : String) (cache : Cache)
    (nA aA nB aB : String) (m1 : Val)
    (hA : get_service store u nA aA = some [(aA, m1)])
    (hB : get_service store u nB aB = none) :
    (info store u (some [PyVal.tup [PyVal.str nA, PyVal.str aA],
                         PyVal.tup [PyVal.str nB, PyVal.str aB]])
       none none false cache).1 =
      Except.ok [("services", Val.d [(aA, m1)])] := by
  simp [info, keyTruthy, runServices, runConfs, _build_tuple, pyStr, hA, hB,
        filterTruthy, merge_dicts, dupdate, dinsert]

theorem C8_absent_dropped_witness :
    get_service c8store "http://e" "okService" "okAlias" =
      some [("okAlias", Val.d [("r", Val.d [("host", Val.s "h"), ("port", Val.i 1)])])] ∧
    get_service c8store "http://e" "gone" "goneAlias" = none ∧
    (info c8store "http://e"
       (some [PyVal.tup [PyVal.str "okService", PyVal.str "okAlias"],
              PyVal.tup [PyVal.str "gone", PyVal.str "goneAlias"]])
       none none false []).1 =
      Except.ok [("services",
        Val.d [("okAlias", Val.d [("r", Val.d [("host", Val.s "h"), ("port", Val.i 1)])])])] :=
  ⟨by decide, by decide,
   C8_absent_dropped c8store "http://e" [] "okService" "okAlias" "gone" "goneAlias"
     (Val.d [("r", Val.d [("host", Val.s "h"), ("port", Val.i 1)])])
     (by decide) (by decide)⟩

/-! ## Claim C6 -/

/-- C6: the merge is last-wins — two service requests sharing alias "x"
leave svcB's resolution under services.x, and a successfully resolved
config alias literally named "services" overwrites the combined service
map at the top level. -/
theorem C6_last_wins (store : Store) (u : String) (cache : Cache)
    (mA mB vS : Val) (c : String)
    (hA : get_service store u "svcA" "x" = some [("x", mA)])
    (hB : get_service store u "svcB" "x" = some [("x", mB)])
    (hC : get_conf store u c "services" = Except.ok (some [("services", vS)])) :
    (info store u (some [PyVal.tup [PyVal.str "svcA", PyVal.str "x"],
                         PyVal.tup [PyVal.str "svcB", PyVal.str "x"]])
       none none false cache).1 =
      Except.ok [("services", Val.d [("x", mB)])] ∧
    (info store u (some [PyVal.tup [PyVal.str "svcA", PyVal.str "x"]])
       (some [PyVal.tup [PyVal.str c, PyVal.str "services"]]) none false cache).1 =
      Except.ok [("services", vS)] := by
  constructor
  · simp [info, keyTruthy, runServices, runConfs, _build_tuple, pyStr, hA, hB,
          filterTruthy, merge_dicts, dupdate, dinsert]
  · simp [info, keyTruthy, runServices, runConfs, _build_tuple, pyStr, hA, hC,
          filterTruthy, merge_dicts, dupdate, dinsert]

theorem C6_last_wins_witness :
    get_service c6store "http://e" "svcA" "x" =
      some [("x", Val.d [("r", Val.d [("host", Val.s "a"), ("port", Val.i 1)])])] ∧
    get_service c6store "http://e" "svcB" "x" =
      some [("x", Val.d [("r", Val.d [("host", Val.s "b"), ("port", Val.i 2)])])] ∧
    get_conf c6store "http://e" "cname" "services" =
      Except.ok (some [("services", Val.s "override")]) ∧
    (info c6store "http://e" (some [PyVal.tup [PyVal.str "svcA", PyVal.str "x"],
                                    PyVal.tup [PyVal.str "svcB", PyVal.str "x"]])
       none none false []).1 =
      Except.ok [("services",
        Val.d [("x", Val.d [("r", Val.d [("host", Val.s "b"), ("port", Val.i 2)])])])] :=
  ⟨by decide, by decide, by decide,
   (C6_last_wins c6store "http://e" []
     (Val.d [("r", Val.d [("host", Val.s "a"), ("port", Val.i 1)])])
     (Val.d [("r", Val.d [("host", Val.s "b"), ("port", Val.i 2)])])
     (Val.s "override") "cname"
     (by decide) (by decide) (by decide)).1⟩

/-- C7: on a well-formed tree the resolution is a mapping whose single
top-level key is the caller-supplied alias (not the store key); a
non-empty directory resolves to the shallow merge of its children's
single-key resolutions, a leaf to its scalar value (that recursion is
`specConfVal`); and the three-level tree {a: {b: {c: "v"}}} resolves to
{alias: {a: {b: {c: "v"}}}}. -/
theorem C7_conf_resolution :
    (∀ (store : Store) (u name a : String) (n : CNode),
      store.conf (conf_url u name) = ConfFetch.node n → wfNode n = true → a ≠ "" →
      get_conf store u name a = Except.ok (some [(a, specConfVal n)])) ∧
    (∀ (k : String) (value : Option String) (n1 : CNode) (ns : List CNode),
      wfNode (CNode.mk (some k) value (some true) (some (n1 :: ns))) = true →
      build_conf (CNode.mk (some k) value (some true) (some (n1 :: ns))) none =
        Except.ok (some [(lastSeg k, Val.d (specMerge (n1 :: ns) []))])) ∧
    (∀ (k v : String),
      build_conf (CNode.mk (some k) (some v) none none) none =
        Except.ok (some [(lastSeg k, Val.s v)])) ∧
    get_conf c7store "http://e" "app" "cfg" =
      Except.ok (some [("cfg",
        Val.d [("a", Val.d [("b", Val.d [("c", Val.s "v")])])])]) := by
  refine ⟨?_, ?_, ?_, by decide⟩
  · intro store u name a n hresp hwf ha
    simp [get_conf, hresp, build_conf_wf_alias n hwf a ha]
  · intro k value n1 ns hwf
    have h := build_conf_wf_none _ hwf
    simpa [CNode.key, specConfVal] using h
  · intro k v
    simp [build_conf, truthyOpt]

theorem C7_conf_resolution_witness :
    wfNode c7tree = true ∧
    get_conf c7store "http://e" "app" "zz" =
      Except.ok (some [("zz", specConfVal c7tree)]) :=
  ⟨by decide,
   C7_conf_resolution.1 c7store "http://e" "app" "zz" c7tree rfl
     (by decide) (by decide)⟩

/-! ## Claim C5 -/

/-- C5 counterexample: with the request list ["good", <malformed>], info
raises ValueError (and yields no bundle) but only after the store fetch
for "good" has been performed — refuting "before any store fetch is
performed for any entry". -/
theorem C5_counterexample :
    (info c5store "http://e" (some [PyVal.str "good", PyVal.other]) none
       none false []) =
      (Except.error PyErr.valueError, [], [service_url "http://e" "good"]) ∧
    [service_url "http://e" "good"] ≠ ([] : List String) := by
  exact ⟨by decide, by decide⟩

/-- C5 (amended: the error and the absence of a partial result stand, but
fetches for entries earlier in the lists may already have been performed,
because normalization is interleaved with fetching): when the call is not
served from the cache and some request entry is malformed, info ends in an
uncaught exception — ValueError itself whenever the malformed entry is
among the service requests — returns no bundle, and leaves the cache
unchanged. -/
theorem C5_malformed_aborts (store : Store) (u : String)
    (sns cns : Option (List PyVal)) (ck : Option String) (fr : Bool)
    (cache : Cache)
    (hmiss : (if ¬fr ∧ keyTruthy ck then dget cache (ck.getD "") else none) = none)
    (hbad : (∃ e ∈ sns.getD [], badReq e = true) ∨
            (∃ e ∈ cns.getD [], badReq e = true)) :
    (∃ err, (info store u sns cns ck fr cache).1 = Except.error err) ∧
    (info store u sns cns ck fr cache).2.1 = cache ∧
    ((∃ e ∈ sns.getD [], badReq e = true) →
      (info store u sns cns ck fr cache).1 = Except.error PyErr.valueError) := by
  unfold info
  rw [hmiss]
  rcases hrs : runServices store u (sns.getD []) with ⟨sres, str⟩
  cases sres with
  | error e =>
    refine ⟨⟨e, by simp⟩, by simp, fun hb => ?_⟩
    have hval := runServices_error_of_bad store u _ hb
    rw [hrs] at hval
    simp only at hval
    rw [hval]
  | ok sresults =>
    have hnosbad : ¬(∃ e ∈ sns.getD [], badReq e = true) := by
      intro hb
      have hval := runServices_error_of_bad store u _ hb
      rw [hrs] at hval
      simp at hval
    have hcbad : ∃ e ∈ cns.getD [], badReq e = true := hbad.resolve_left hnosbad
    obtain ⟨err, herr⟩ := runConfs_error_of_bad store u _ hcbad
    rcases hrc : runConfs store u (cns.getD []) with ⟨cres, ctr⟩
    rw [hrc] at herr
    simp only at herr
    subst herr
    exact ⟨⟨err, by simp⟩, by simp, fun hb => absurd hb hnosbad⟩

theorem C5_malformed_aborts_witness :
    ((if ¬false ∧ keyTruthy none then dget ([] : Cache) ((none : Option String).getD "")
      else none) = none) ∧
    badReq PyVal.other = true ∧
    (info c5store "http://e" (some [PyVal.other]) none none false []).1 =
      Except.error PyErr.valueError :=
  ⟨by simp [keyTruthy], by decide,
   (C5_malformed_aborts c5store "http://e" (some [PyVal.other]) none none false []
     (by simp [keyTruthy])
     (Or.inl ⟨PyVal.other, by simp, by decide⟩)).2.2
     ⟨PyVal.other, by simp, by decide⟩⟩

/-- C3 counterexample: with cacheKey = "" (a cache key, but falsy in
Python), the cache is bypassed entirely: the second call with
forceRefresh=false re-fetches from the mutated store (non-empty fetch
trace) and returns a different bundle than the first call. -/
theorem C3_counterexample :
    (info c3storeB "http://e" (some [PyVal.str "s"]) none (some "") false
       (info c3storeA "http://e" (some [PyVal.str "s"]) none (some "") false []).2.1).1 ≠
      (info c3storeA "http://e" (some [PyVal.str "s"]) none (some "") false []).1 ∧
    (info c3storeB "http://e" (some [PyVal.str "s"]) none (some "") false
       (info c3storeA "http://e" (some [PyVal.str "s"]) none (some "") false []).2.1).2.2 ≠
      ([] : List String) := by
  exact ⟨by decide, by decide⟩

/-- An info call with a truthy cache key that returns a bundle leaves that
bundle in the cache under the key, whether it was a cache hit or a fresh
computation. -/
theorem info_ok_dget (store : Store) (u : String) (sns cns : Option (List PyVal))
    (k : String) (fr : Bool) (cache c1 : Cache) (b : Dct) (tr : List String)
    (hk : k ≠ "")
    (h : info store u sns cns (some k) fr cache = (Except.ok b, c1, tr)) :
    dget c1 k = some b := by
  have hkt : keyTruthy (some k) = true := by simp [keyTruthy, hk]
  unfold info at h
  by_cases hfr : fr = true
  · rw [if_neg (by simp [hfr])] at h
    rcases hrs : runServices store u (sns.getD []) with ⟨sres, str⟩
    rw [hrs] at h
    cases sres with
    | error e => simp at h
    | ok sresults =>
      rcases hrc : runConfs store u (cns.getD []) with ⟨cres, ctr⟩
      rw [hrc] at h
      cases cres with
      | error e => simp at h
      | ok cresults =>
        simp only [hkt, if_true, Prod.mk.injEq, Except.ok.injEq] at h
        obtain ⟨hb, hc1, -⟩ := h
        subst hb
        subst hc1
        simp [dget_dinsert]
  · rw [if_pos ⟨by simp [hfr], hkt⟩] at h
    simp only [Option.getD_some] at h
    cases hc : dget cache k with
    | some r =>
      rw [hc] at h
      simp only [Prod.mk.injEq, Except.ok.injEq] at h
      obtain ⟨hb, hc1, -⟩ := h
      subst hb
      subst hc1
      exact hc
    | none =>
      rw [hc] at h
      rcases hrs : runServices store u (sns.getD []) with ⟨sres, str⟩
      rw [hrs] at h
      cases sres with
      | error e => simp at h
      | ok sresults =>
        rcases hrc : runConfs store u (cns.getD []) with ⟨cres, ctr⟩
        rw [hrc] at h
        cases cres with
        | error e => simp at h
        | ok cresults =>
          simp only [hkt, if_true, Prod.mk.injEq, Except.ok.injEq] at h
          obtain ⟨hb, hc1, -⟩ := h
          subst hb
          subst hc1
          simp [dget_dinsert]

/-- C3 (amended to nonempty cache keys — the code treats the empty string
as "no cache key", see the counterexample): with a nonempty cacheKey and
forceRefresh false, a second info call after a successful first call
returns exactly the first call's bundle, no matter how the store changed,
performing no store fetch and leaving the cache unchanged; and a
forceRefresh=true call computes the bundle from the store ignoring the
cache contents and overwrites the cache entry under the key with it. -/
theorem C3_cache_read_through :
    (∀ (store1 store2 : Store) (u : String) (sns cns : Option (List PyVal))
        (k : String) (cache c1 : Cache) (b : Dct) (tr : List String),
      k ≠ "" →
      info store1 u sns cns (some k) false cache = (Except.ok b, c1, tr) →
      info store2 u sns cns (some k) false c1 = (Except.ok b, c1, [])) ∧
    (∀ (store : Store) (u : String) (sns cns : Option (List PyVal))
        (k : String) (cache : Cache),
      k ≠ "" →
      (info store u sns cns (some k) true cache).1 =
        (info store u sns cns (some k) true []).1 ∧
      ∀ b : Dct, (info store u sns cns (some k) true cache).1 = Except.ok b →
        (info store u sns cns (some k) true cache).2.1 = dinsert cache k b) := by
  constructor
  · intro store1 store2 u sns cns k cache c1 b tr hk h
    have hget := info_ok_dget store1 u sns cns k false cache c1 b tr hk h
    have hkt : keyTruthy (some k) = true := by simp [keyTruthy, hk]
    unfold info
    rw [if_pos ⟨by simp, hkt⟩]
    simp [hget]
  · intro store u sns cns k cache hk
    have hkt : keyTruthy (some k) = true := by simp [keyTruthy, hk]
    have hcond : ¬(¬true = true ∧ keyTruthy (some k) = true) := by simp
    constructor
    · unfold info
      simp only [if_neg hcond]
      rcases hrs : runServices store u (sns.getD []) with ⟨sres, str⟩
      cases sres with
      | error e => simp
      | ok sresults =>
        rcases hrc : runConfs store u (cns.getD []) with ⟨cres, ctr⟩
        cases cres with
        | error e => simp
        | ok cresults => simp
    · intro b hb
      unfold info at hb ⊢
      rcases hrs : runServices store u (sns.getD []) with ⟨sres, str⟩
      rw [hrs] at hb
      cases sres with
      | error e => simp at hb
      | ok sresults =>
        rcases hrc : runConfs store u (cns.getD []) with ⟨cres, ctr⟩
        rw [hrc] at hb
        cases cres with
        | error e => simp at hb
        | ok cresults =>
          simp at hb
          simp [hkt, hb]

theorem C3_cache_read_through_witness :
    ("k1" : String) ≠ "" ∧
    info c3storeA "http://e" (some [PyVal.str "s"]) none (some "k1") false [] =
      (Except.ok c3bundle, [("k1", c3bundle)], [service_url "http://e" "s"]) ∧
    info c3storeB "http://e" (some [PyVal.str "s"]) none (some "k1") false
      [("k1", c3bundle)] = (Except.ok c3bundle, [("k1", c3bundle)], []) :=
  ⟨by decide, by decide,
   C3_cache_read_through.1 c3storeA c3storeB "http://e" (some [PyVal.str "s"]) none
     "k1" [] [("k1", c3bundle)] c3bundle [service_url "http://e" "s"]
     (by decide) (by decide)⟩

end Etcd
